import Mathlib

/-!
# Shallow embedding of the icefeed continuity & pacing engine

The repository ships two versions of `main.cpp`.  Both stream a shuffled
directory of M4A files to an Icecast server, rewriting packet timestamps so
the concatenation looks like one monotone timeline, pacing emission against
a wall-clock lag, and classifying failures as recoverable (per-track) or
fatal (write failure).

* Version A (`main.cpp`, first file): keeps a member `last_pts` as "the next
  PTS to use" (`last_pts = pkt.pts + 1` after each packet), maps a packet
  without a timestamp (`AV_NOPTS_VALUE`) to `last_pts`, and at end of track
  sets `offset_pts = last_pts`.
* Version B (`main.cpp`, second file): keeps per-track `last_pts` /
  `last_duration`, absorbs a negative timestamp on the first packet of a
  track into `offset_pts`, always maps `pkt.pts + offset_pts`, and at end of
  track sets `offset_pts = last_pts + last_duration`.

Version B is embedded in full (the packet loop of `stream_file`, its
header block with all three of its failure paths, the outer `run` loop and
`main`'s exit policy, as a deterministic function of a script of
environment events: scan results, per-track open and header-block results,
per-packet write results and wall-clock readings).  Version A's timestamp
mapping is embedded separately (`V1` namespace).

Machine integers (`int64_t`) are modelled as `Int`; the embedding is exact
as long as no intermediate value crosses `2^63`, which holds for all inputs
considered in the theorems below.
-/

namespace Icefeed

/-- `AV_NOPTS_VALUE`in libav: `INT64_MIN`, the sentinel stored in
`AVPacket.pts` when the packet carries no timestamp. -/
def avNoPtsValue : Int := -(2 ^ 63)

/-- FFmpeg `av_rescale(a, b, c)` with the default rounding
`AV_ROUND_NEAR_INF` (round to nearest, halfway cases away from zero),
assuming `b, c > 0`: computes `a * b / c` rounded.  Both branches divide
nonnegative integers, so Lean's `/` on `Int` agrees with C's truncating
division here. -/
def avRescaleNear (a b c : Int) : Int :=
  if 0 ≤ a then (2 * (a * b) + c) / (2 * c)
  else -((2 * (-(a * b)) + c) / (2 * c))

/-- FFmpeg `av_rescale_q(a, bq, AV_TIME_BASE_Q)`: converts `a` from time
base `bqNum/bqDen` to microseconds (`AV_TIME_BASE_Q = 1/1000000`), i.e.
`av_rescale(a, bqNum * 1000000, bqDen * 1)`. -/
def avRescaleQus (a bqNum bqDen : Int) : Int :=
  avRescaleNear a (bqNum * 1000000) (bqDen * 1)

/-- One demuxed packet together with the environment's response to it:
`pts`/`duration` as stored in `AVPacket` (a missing timestamp is the
sentinel `avNoPtsValue`), `audio` is `pkt.stream_index == audio_stream_index`,
`writeOk` the result of `av_interleaved_write_frame`, and `now` the
wall-clock reading (µs) taken right after this packet's write returns. -/
structure Packet where
  pts : Int
  duration : Int
  audio : Bool
  writeOk : Bool
  now : Int
  deriving Repr, DecidableEq

/-- The audio packets of a track, in order: those the `stream_file` loop
does not skip. -/
def audioOf (pkts : List Packet) : List Packet := pkts.filter (·.audio)

/-- The pacing decision of the packet loop (version B, lines 433-442; the
same code appears in version A): if `pkt.duration > 0`, rescale it to
microseconds and sleep for `sleep_us - lag` when that is positive.  Returns
`some w` when the loop sleeps for `w` microseconds, `none` when it does not
suspend. -/
def delay_for (duration tbNum tbDen lag : Int) : Option Int :=
  if 0 < duration then
    let sleep_us := avRescaleQus duration tbNum tbDen
    let diff_us := sleep_us - lag
    if 0 < diff_us then some diff_us else none
  else none

/-- The local state of version B's packet loop inside `stream_file`:
the members `offset_pts` and `lag` of `IcecastStreamer` together with the
locals `first_pkt`, `last_pts`, `last_duration` (initialised `true, 0, 0`
at every track). -/
structure TrackLoop where
  offset_pts : Int
  lag : Int
  first_pkt : Bool
  last_pts : Int
  last_duration : Int
  deriving Repr, DecidableEq

/-- The timestamp rewrite of one audio packet (version B, lines 444-455):
negative-first-pts absorption into `offset_pts` (with `first_pkt` cleared),
then `pkt.pts += offset_pts`, `dts := pts`, `last_pts := pkt.pts`,
`last_duration := pkt.duration`.  The emitted pts is the new `last_pts`. -/
def mapStep (s : TrackLoop) (p : Packet) : TrackLoop :=
  let offs := if s.first_pkt && decide (p.pts < 0)
              then s.offset_pts - p.pts else s.offset_pts
  ⟨offs, s.lag, false, p.pts + offs, p.duration⟩

/-- The drift-feedback update after a successful write (version B, lines
457-458 and 473-475): `t_track_us = av_rescale_q(pkt.pts, tb, AV_TIME_BASE_Q)`
and `lag = now - start_time - t_track_us`. -/
def lagStep (tbNum tbDen t0 : Int) (s1 : TrackLoop) (now : Int) : TrackLoop :=
  { s1 with lag := now - t0 - avRescaleQus s1.last_pts tbNum tbDen }

/-- Version B's `while (av_read_frame(...) >= 0)` loop (lines 430-478).
Per audio packet, in source order: pacing decision from the current `lag`
(lines 433-442); timestamp rewrite (`mapStep`);
`av_interleaved_write_frame` (on failure the loop throws `ErrorWritePacket`,
with `lag` not yet updated); on success the `lag` update (`lagStep`).
Non-audio packets are skipped.  Returns the final loop state, the list of
(pacing sleep, emitted pts) pairs in emission order, and whether a write
failed. -/
def readLoop (tbNum tbDen t0 : Int) (s : TrackLoop) :
    List Packet → TrackLoop × List (Option Int × Int) × Bool
  | [] => (s, [], false)
  | p :: ps =>
    if p.audio then
      let slp := delay_for p.duration tbNum tbDen s.lag
      let s1 := mapStep s p
      if p.writeOk then
        let r := readLoop tbNum tbDen t0 (lagStep tbNum tbDen t0 s1 p.now) ps
        (r.1, (slp, s1.last_pts) :: r.2.1, r.2.2)
      else
        (s1, [(slp, s1.last_pts)], true)
    else
      readLoop tbNum tbDen t0 s ps

/-- The engine state persisting across tracks: the `IcecastStreamer`
members `offset_pts`, `lag`, and whether the output `audio_stream` has been
created (i.e. whether the stream header has been written). -/
structure EngineState where
  offset_pts : Int
  lag : Int
  audio_stream : Bool
  deriving Repr, DecidableEq

/-- What happens inside the header block (lines 404-421) when it runs,
i.e. which of its three calls fails first, if any: `avformat_new_stream`
returning null, `avcodec_parameters_copy < 0`, or
`avformat_write_header < 0`. -/
inductive HeaderOutcome
  | ok
  | newStreamFail
  | copyFail
  | headerFail
  deriving Repr, DecidableEq

/-- What one `stream_file` attempt finds: the three early-failure paths
(`avformat_open_input < 0`, `avformat_find_stream_info < 0`,
`av_find_best_stream < 0`) or a successfully opened track with its input
time base, the outcome its codec parameters would give the header block,
and its packet sequence. -/
inductive TrackInput
  | openFail
  | infoFail
  | noAudio
  | opened (tbNum tbDen : Int) (hdr : HeaderOutcome) (pkts : List Packet)
  deriving Repr, DecidableEq

/-- The exceptions `stream_file` can throw: the three `runtime_error`s of
the open phase, the three `runtime_error`s of the header block, and
`ErrorWritePacket`. -/
inductive StreamError
  | openInput
  | streamInfo
  | noAudioStream
  | newStream
  | copyParams
  | writeHeader
  | writePacket
  deriving Repr, DecidableEq

/-- The header block of `stream_file` (lines 404-421), executed only while
the member `audio_stream` is still null.  A failing `avformat_new_stream`
throws with the member still null (a later track will run the block again);
once the member is assigned, a failing `avcodec_parameters_copy` or
`avformat_write_header` throws with the member left non-null — so no later
track ever runs this block again — and the header unwritten; only the
all-success path writes the header.  Returns the `audio_stream` member
after the block, whether the header got written, and the thrown error. -/
def headerBlock : HeaderOutcome → Bool × Bool × Option StreamError
  | .newStreamFail => (false, false, some .newStream)
  | .copyFail => (true, false, some .copyParams)
  | .headerFail => (true, false, some .writeHeader)
  | .ok => (true, true, none)

/-- Result of one `stream_file` call. -/
structure TrackResult where
  state : EngineState
  headerWritten : Bool
  pktTrace : List (Option Int × Int)
  err : Option StreamError
  deriving Repr, DecidableEq

/-- Version B's `stream_file` (lines 383-481).  An open-phase failure
throws before touching any member state.  Otherwise the header block runs
iff `audio_stream` is still null (its failures throw with `offset_pts` and
`lag` untouched but possibly `audio_stream` assigned, see `headerBlock`);
then the packet loop runs with locals `first_pkt = true`, `last_pts = 0`,
`last_duration = 0`; a write failure rethrows `ErrorWritePacket` (skipping
the end-of-track line); on normal end of track
`offset_pts = last_pts + last_duration` (line 479). -/
def stream_file (t0 : Int) (st : EngineState) : TrackInput → TrackResult
  | .openFail => ⟨st, false, [], some .openInput⟩
  | .infoFail => ⟨st, false, [], some .streamInfo⟩
  | .noAudio => ⟨st, false, [], some .noAudioStream⟩
  | .opened tbNum tbDen hdr pkts =>
    let hb := if st.audio_stream then (true, false, none) else headerBlock hdr
    match hb.2.2 with
    | some e => ⟨⟨st.offset_pts, st.lag, hb.1⟩, hb.2.1, [], some e⟩
    | none =>
      let s0 : TrackLoop := ⟨st.offset_pts, st.lag, true, 0, 0⟩
      let r := readLoop tbNum tbDen t0 s0 pkts
      if r.2.2 then
        ⟨⟨r.1.offset_pts, r.1.lag, true⟩, hb.2.1, r.2.1, some .writePacket⟩
      else
        ⟨⟨r.1.last_pts + r.1.last_duration, r.1.lag, true⟩, hb.2.1, r.2.1,
          none⟩

/-- Observable actions of `run`, in order: the one-time
`init_icecast_connection`, the one-time `avformat_write_header`, a pacer
sleep of `us` microseconds, handing a packet with final pts `m` to
`av_interleaved_write_frame`, a `std::cerr` log line, and a
`sleep_for(seconds(sec))` backoff. -/
inductive Ev
  | connect
  | header
  | sleep (us : Int)
  | emit (m : Int)
  | logError
  | backoff (sec : Nat)
  deriving Repr, DecidableEq

/-- Exceptions that escape `run` (and hit `main`'s catch): the
`std::filesystem::filesystem_error` thrown by `directory_iterator` when the
music directory is unreadable, and the rethrown `ErrorWritePacket`. -/
inductive FatalErr
  | scan
  | writePacket
  deriving Repr, DecidableEq

/-- Result of running (a prefix of) the infinite `run` loop. -/
structure LoopResult where
  state : EngineState
  trace : List Ev
  fatal : Option FatalErr
  deriving Repr, DecidableEq

/-- The events a single `stream_file` call contributes to the run trace:
the header write (if any), then per emitted packet its pacing sleep (if
any) followed by the write. -/
def trackTrace (hdr : Bool) (tr : List (Option Int × Int)) : List Ev :=
  (if hdr then [Ev.header] else []) ++
    tr.flatMap fun sm =>
      (match sm.1 with | some w => [Ev.sleep w] | none => []) ++ [Ev.emit sm.2]

/-- The `for (const auto &file : files)` body of `run` (lines 497-507):
`stream_file`; a caught `ErrorWritePacket` is rethrown (aborting the loop);
any other exception is logged, followed by a 1 second backoff, and the loop
continues with the next file. -/
def playFiles (t0 : Int) (st : EngineState) : List TrackInput → LoopResult
  | [] => ⟨st, [], none⟩
  | f :: fs =>
    let r := stream_file t0 st f
    let evs := trackTrace r.headerWritten r.pktTrace
    match r.err with
    | none =>
      let rest := playFiles t0 r.state fs
      ⟨rest.state, evs ++ rest.trace, rest.fatal⟩
    | some .writePacket => ⟨r.state, evs, some .writePacket⟩
    | some _ =>
      let rest := playFiles t0 r.state fs
      ⟨rest.state, evs ++ Ev.logError :: Ev.backoff 1 :: rest.trace, rest.fatal⟩

/-- One iteration of `run`'s `while (true)` as seen from the environment:
either `directory_iterator` throws (`scanFail`) or the scan returns the
(already shuffled) file list. -/
inductive RunEvent
  | scanFail
  | scan (files : List TrackInput)
  deriving Repr, DecidableEq

/-- The `while (true)` loop of `run` (lines 487-508), driven by a finite
script of scan outcomes (the real loop is infinite; a script is the
observed prefix).  `get_m4a_files` throwing is NOT caught inside `run` (the
try block only wraps `stream_file`), so it escapes; an empty list logs and
backs off 5 seconds; otherwise each file is played in order, and a fatal
error from the file loop escapes. -/
def runLoop (t0 : Int) (st : EngineState) : List RunEvent → LoopResult
  | [] => ⟨st, [], none⟩
  | .scanFail :: _ => ⟨st, [], some .scan⟩
  | .scan files :: rest =>
    if files.isEmpty then
      let r := runLoop t0 st rest
      ⟨r.state, Ev.logError :: Ev.backoff 5 :: r.trace, r.fatal⟩
    else
      let r := playFiles t0 st files
      match r.fatal with
      | some e => ⟨r.state, r.trace, some e⟩
      | none =>
        let r2 := runLoop t0 r.state rest
        ⟨r2.state, r.trace ++ r2.trace, r2.fatal⟩

/-- `IcecastStreamer::run` (lines 483-509): fixes `start_time`, establishes
the Icecast connection (unconditionally, before any track), then enters the
scan loop.  Member state starts as zero-initialised
(`offset_pts = 0`, `lag = 0`, `audio_stream = nullptr`). -/
def runStreamer (t0 : Int) (script : List RunEvent) : LoopResult :=
  let r := runLoop t0 ⟨0, 0, false⟩ script
  ⟨r.state, Ev.connect :: r.trace, r.fatal⟩

/-- `main` (lines 512-532): any exception escaping `run` is caught and the
process returns 1.  `some 1` = the process exited with status 1; `none` =
still looping (the script prefix ended without a fatal error). -/
def mainExit (t0 : Int) (script : List RunEvent) : Option Nat :=
  match (runStreamer t0 script).fatal with
  | some _ => some 1
  | none => none

/-- The sequence of mapped output timestamps handed to the publisher, in
order, as recorded in a trace. -/
def emittedOf (evs : List Ev) : List Int :=
  evs.filterMap fun e => match e with | .emit m => some m | _ => none

namespace V1

/-- Version A's persistent mapping state: member `last_pts` ("the next PTS
to use", line 35) and member `offset_pts`. -/
structure MapState where
  last_pts : Int
  offset_pts : Int
  deriving Repr, DecidableEq

/-- Version A's per-packet timestamp assignment (lines 177-194): a packet
with a timestamp gets `pkt.pts + offset_pts`; a packet whose `pts` is
`AV_NOPTS_VALUE` gets the running counter `last_pts`; afterwards
`last_pts = pkt.pts + 1`.  Returns the new state and the emitted pts. -/
def mapPacket (st : MapState) (pts : Int) : MapState × Int :=
  let mapped := if pts ≠ avNoPtsValue then pts + st.offset_pts else st.last_pts
  (⟨mapped + 1, st.offset_pts⟩, mapped)

/-- Version A's mapping folded over a track's audio packet timestamps. -/
def mapTrack (st : MapState) : List Int → MapState × List Int
  | [] => (st, [])
  | p :: ps =>
    let r := mapPacket st p
    let rest := mapTrack r.1 ps
    (rest.1, r.2 :: rest.2)

end V1

/-! ## Helper lemmas -/

/-- The emitted (pacing, pts) trace of a `readLoop` result, projected to the
pts actually handed to the muxer. -/
def emOf (r : TrackLoop × List (Option Int × Int) × Bool) : List Int :=
  r.2.1.map Prod.snd

theorem audioOf_nil : audioOf [] = [] := rfl

theorem audioOf_cons (p : Packet) (ps : List Packet) :
    audioOf (p :: ps) = if p.audio then p :: audioOf ps else audioOf ps := by
  simp [audioOf, List.filter_cons]

theorem readLoop_skip (tbN tbD t0 : Int) (s : TrackLoop) (p : Packet)
    (ps : List Packet) (h : p.audio = false) :
    readLoop tbN tbD t0 s (p :: ps) = readLoop tbN tbD t0 s ps := by
  simp [readLoop, h]

theorem readLoop_nil_audio (tbN tbD t0 : Int) :
    ∀ (pkts : List Packet) (s : TrackLoop), audioOf pkts = [] →
      readLoop tbN tbD t0 s pkts = (s, [], false)
  | [], s, _ => rfl
  | p :: ps, s, h => by
    rw [audioOf_cons] at h
    by_cases hp : p.audio
    · simp [hp] at h
    · rw [readLoop_skip tbN tbD t0 s p ps (by simpa using hp)]
      simp only [hp, if_neg, if_false] at h
      exact readLoop_nil_audio tbN tbD t0 ps s (by simpa [hp] using h)

theorem mapStep_offset_of_not_first (s : TrackLoop) (p : Packet)
    (h : s.first_pkt = false) : (mapStep s p).offset_pts = s.offset_pts := by
  simp [mapStep, h]

theorem mapStep_last_of_not_first (s : TrackLoop) (p : Packet)
    (h : s.first_pkt = false) :
    (mapStep s p).last_pts = p.pts + s.offset_pts := by
  simp [mapStep, h]

theorem mapStep_first (s : TrackLoop) (p : Packet) :
    (mapStep s p).first_pkt = false := rfl

theorem mapStep_duration (s : TrackLoop) (p : Packet) :
    (mapStep s p).last_duration = p.duration := rfl

theorem mapStep_last_of_first (s : TrackLoop) (p : Packet)
    (h : s.first_pkt = true) :
    (mapStep s p).last_pts =
      p.pts + (if p.pts < 0 then s.offset_pts - p.pts else s.offset_pts) := by
  simp [mapStep, h]

theorem lagStep_offset (tbN tbD t0 : Int) (s1 : TrackLoop) (now : Int) :
    (lagStep tbN tbD t0 s1 now).offset_pts = s1.offset_pts := rfl

theorem lagStep_first (tbN tbD t0 : Int) (s1 : TrackLoop) (now : Int) :
    (lagStep tbN tbD t0 s1 now).first_pkt = s1.first_pkt := rfl

theorem lagStep_last (tbN tbD t0 : Int) (s1 : TrackLoop) (now : Int) :
    (lagStep tbN tbD t0 s1 now).last_pts = s1.last_pts := rfl

theorem lagStep_duration (tbN tbD t0 : Int) (s1 : TrackLoop) (now : Int) :
    (lagStep tbN tbD t0 s1 now).last_duration = s1.last_duration := rfl

theorem readLoop_cons_audio_ok (tbN tbD t0 : Int) (s : TrackLoop)
    (p : Packet) (ps : List Packet) (hp : p.audio = true)
    (hw : p.writeOk = true) :
    readLoop tbN tbD t0 s (p :: ps) =
      ((readLoop tbN tbD t0 (lagStep tbN tbD t0 (mapStep s p) p.now) ps).1,
       (delay_for p.duration tbN tbD s.lag, (mapStep s p).last_pts) ::
         (readLoop tbN tbD t0 (lagStep tbN tbD t0 (mapStep s p) p.now) ps).2.1,
       (readLoop tbN tbD t0 (lagStep tbN tbD t0 (mapStep s p) p.now) ps).2.2)
    := by
  simp [readLoop, hp, hw]

theorem readLoop_cons_audio_fail (tbN tbD t0 : Int) (s : TrackLoop)
    (p : Packet) (ps : List Packet) (hp : p.audio = true)
    (hw : p.writeOk = false) :
    readLoop tbN tbD t0 s (p :: ps) =
      (mapStep s p,
       [(delay_for p.duration tbN tbD s.lag, (mapStep s p).last_pts)],
       true) := by
  simp [readLoop, hp, hw]

theorem avRescaleNear_self (a q : Int) (hq : 0 < q) :
    avRescaleNear a q q = a := by
  have h2q : (2 : Int) * q ≠ 0 := by positivity
  have hz : q / (2 * q) = 0 :=
    Int.ediv_eq_zero_of_lt (le_of_lt hq) (by linarith)
  unfold avRescaleNear
  by_cases ha : 0 ≤ a
  · rw [if_pos ha]
    have : 2 * (a * q) + q = q + a * (2 * q) := by ring
    rw [this, Int.add_mul_ediv_right q a h2q, hz, zero_add]
  · rw [if_neg ha]
    have : 2 * (-(a * q)) + q = q + (-a) * (2 * q) := by ring
    rw [this, Int.add_mul_ediv_right q (-a) h2q, hz, zero_add, neg_neg]

theorem avRescaleQus_usBase (a : Int) : avRescaleQus a 1 1000000 = a := by
  unfold avRescaleQus
  norm_num
  exact avRescaleNear_self a 1000000 (by norm_num)

theorem delay_for_some_iff (d tbN tbD lag w : Int) :
    delay_for d tbN tbD lag = some w ↔
      0 < d ∧ w = avRescaleQus d tbN tbD - lag ∧
        0 < avRescaleQus d tbN tbD - lag := by
  unfold delay_for
  by_cases hd : 0 < d
  · simp only [if_pos hd]
    by_cases hdiff : 0 < avRescaleQus d tbN tbD - lag
    · simp only [if_pos hdiff, Option.some.injEq]
      constructor
      · rintro rfl
        exact ⟨hd, rfl, hdiff⟩
      · rintro ⟨-, rfl, -⟩
        rfl
    · simp only [if_neg hdiff]
      constructor
      · rintro ⟨⟩
      · rintro ⟨-, rfl, h⟩
        exact absurd h hdiff
  · simp only [if_neg hd]
    constructor
    · rintro ⟨⟩
    · rintro ⟨h, -, -⟩
      exact absurd h hd

/-- Invariant of the packet loop after the first audio packet of a track
(`first_pkt = false`): emissions are strictly increasing, strictly above the
entry `last_pts`, the offset never changes, `last_pts` is the running
maximum of the emissions, and `last_duration` stays positive — provided the
remaining audio packets have strictly increasing pts and positive
durations. -/
theorem readLoop_tail (tbN tbD t0 : Int) :
    ∀ (pkts : List Packet) (s : TrackLoop),
      s.first_pkt = false →
      (∀ p ∈ audioOf pkts, s.last_pts < p.pts + s.offset_pts) →
      (audioOf pkts).Pairwise (fun p q => p.pts < q.pts) →
      (∀ p ∈ audioOf pkts, 0 < p.duration) →
      0 < s.last_duration →
      (emOf (readLoop tbN tbD t0 s pkts)).Pairwise (· < ·) ∧
      (∀ m ∈ emOf (readLoop tbN tbD t0 s pkts), s.last_pts < m) ∧
      (readLoop tbN tbD t0 s pkts).1.offset_pts = s.offset_pts ∧
      s.last_pts ≤ (readLoop tbN tbD t0 s pkts).1.last_pts ∧
      (∀ m ∈ emOf (readLoop tbN tbD t0 s pkts),
        m ≤ (readLoop tbN tbD t0 s pkts).1.last_pts) ∧
      0 < (readLoop tbN tbD t0 s pkts).1.last_duration := by
  intro pkts
  induction pkts with
  | nil =>
    intro s _ _ _ _ h5
    refine ⟨?_, ?_, rfl, le_refl _, ?_, h5⟩ <;> simp [readLoop, emOf]
  | cons p ps ih =>
    intro s hf h1 h2 h3 h5
    by_cases hp : p.audio = true
    · rw [audioOf_cons, if_pos hp] at h1 h2 h3
      rw [List.pairwise_cons] at h2
      obtain ⟨hpq, h2'⟩ := h2
      have hph1 : s.last_pts < p.pts + s.offset_pts :=
        h1 p (List.mem_cons_self p _)
      have hpd : 0 < p.duration := h3 p (List.mem_cons_self p _)
      have hmapped : (mapStep s p).last_pts = p.pts + s.offset_pts :=
        mapStep_last_of_not_first s p hf
      have hm_gt : s.last_pts < (mapStep s p).last_pts := by
        rw [hmapped]; exact hph1
      by_cases hw : p.writeOk = true
      · rw [readLoop_cons_audio_ok tbN tbD t0 s p ps hp hw]
        set s2 := lagStep tbN tbD t0 (mapStep s p) p.now with hs2
        have hs2f : s2.first_pkt = false := by
          rw [hs2, lagStep_first, mapStep_first]
        have hs2o : s2.offset_pts = s.offset_pts := by
          rw [hs2, lagStep_offset, mapStep_offset_of_not_first s p hf]
        have hs2l : s2.last_pts = p.pts + s.offset_pts := by
          rw [hs2, lagStep_last, hmapped]
        have hs2d : 0 < s2.last_duration := by
          rw [hs2, lagStep_duration, mapStep_duration]; exact hpd
        have ihh := ih s2 hs2f
          (by
            intro q hq
            rw [hs2l, hs2o]
            have := hpq q hq
            linarith)
          h2'
          (fun q hq => h3 q (List.mem_cons_of_mem p hq))
          hs2d
        obtain ⟨ih1, ih2, ih3, ih4, ih5, ih6⟩ := ihh
        have hlast : (mapStep s p).last_pts = s2.last_pts := by
          rw [hs2l, hmapped]
        refine ⟨?_, ?_, ?_, ?_, ?_, ?_⟩
        · simp only [emOf, List.map_cons]
          rw [List.pairwise_cons]
          exact ⟨fun m hm => hlast ▸ (ih2 m hm), ih1⟩
        · intro m hm
          simp only [emOf, List.map_cons, List.mem_cons] at hm
          rcases hm with rfl | hm
          · exact hm_gt
          · exact lt_trans hm_gt (hlast ▸ ih2 m hm)
        · exact ih3.trans hs2o
        · exact le_of_lt (lt_of_lt_of_le (hlast ▸ hm_gt) ih4)
        · intro m hm
          simp only [emOf, List.map_cons, List.mem_cons] at hm
          rcases hm with rfl | hm
          · exact hlast ▸ ih4
          · exact ih5 m hm
        · exact ih6
      · rw [readLoop_cons_audio_fail tbN tbD t0 s p ps hp
          (by simpa using hw)]
        refine ⟨?_, ?_, ?_, ?_, ?_, ?_⟩
        · simp [emOf]
        · intro m hm
          simp only [emOf, List.map_cons, List.map_nil, List.mem_singleton]
            at hm
          rw [hm]; exact hm_gt
        · exact mapStep_offset_of_not_first s p hf
        · exact le_of_lt hm_gt
        · intro m hm
          simp only [emOf, List.map_cons, List.map_nil, List.mem_singleton]
            at hm
          rw [hm]
        · rw [mapStep_duration]; exact hpd
    · rw [readLoop_skip tbN tbD t0 s p ps (by simpa using hp)]
      rw [audioOf_cons, if_neg hp] at h1 h2 h3
      exact ih s hf h1 h2 h3 h5

theorem mapStep_last_eq (s : TrackLoop) (p : Packet) :
    (mapStep s p).last_pts = p.pts + (mapStep s p).offset_pts := rfl

/-- Entry invariant of the packet loop for a fresh track
(`first_pkt = true`): emissions are strictly increasing and bounded below
by the entry offset; if the track has audio packets, at least one packet is
emitted and `last_pts`/`last_duration` record the running maximum and a
positive duration. -/
theorem readLoop_head (tbN tbD t0 : Int) :
    ∀ (pkts : List Packet) (s : TrackLoop),
      s.first_pkt = true →
      (audioOf pkts).Pairwise (fun p q => p.pts < q.pts) →
      (∀ p ∈ audioOf pkts, 0 < p.duration) →
      (emOf (readLoop tbN tbD t0 s pkts)).Pairwise (· < ·) ∧
      (∀ m ∈ emOf (readLoop tbN tbD t0 s pkts), s.offset_pts ≤ m) ∧
      (audioOf pkts ≠ [] →
        emOf (readLoop tbN tbD t0 s pkts) ≠ [] ∧
        (∀ m ∈ emOf (readLoop tbN tbD t0 s pkts),
          m ≤ (readLoop tbN tbD t0 s pkts).1.last_pts) ∧
        0 < (readLoop tbN tbD t0 s pkts).1.last_duration ∧
        s.offset_pts ≤ (readLoop tbN tbD t0 s pkts).1.last_pts) := by
  intro pkts
  induction pkts with
  | nil =>
    intro s _ _ _
    refine ⟨by simp [readLoop, emOf], by simp [readLoop, emOf], ?_⟩
    intro h
    exact absurd audioOf_nil h
  | cons p ps ih =>
    intro s hf h2 h3
    by_cases hp : p.audio = true
    · rw [audioOf_cons, if_pos hp] at h2 h3
      rw [List.pairwise_cons] at h2
      obtain ⟨hpq, h2'⟩ := h2
      have hpd : 0 < p.duration := h3 p (List.mem_cons_self p _)
      have hm_ge : s.offset_pts ≤ (mapStep s p).last_pts := by
        rw [mapStep_last_of_first s p hf]
        by_cases hneg : p.pts < 0
        · rw [if_pos hneg]; linarith
        · rw [if_neg hneg]; linarith [not_lt.mp hneg]
      by_cases hw : p.writeOk = true
      · rw [readLoop_cons_audio_ok tbN tbD t0 s p ps hp hw]
        set s2 := lagStep tbN tbD t0 (mapStep s p) p.now with hs2
        have hs2f : s2.first_pkt = false := by
          rw [hs2, lagStep_first, mapStep_first]
        have hs2l : s2.last_pts = (mapStep s p).last_pts := by
          rw [hs2, lagStep_last]
        have hs2o : s2.offset_pts = (mapStep s p).offset_pts := by
          rw [hs2, lagStep_offset]
        have hs2d : 0 < s2.last_duration := by
          rw [hs2, lagStep_duration, mapStep_duration]; exact hpd
        have tl := readLoop_tail tbN tbD t0 ps s2 hs2f
          (by
            intro q hq
            rw [hs2l, hs2o, mapStep_last_eq]
            have := hpq q hq
            linarith)
          h2'
          (fun q hq => h3 q (List.mem_cons_of_mem p hq))
          hs2d
        obtain ⟨t1, t2, _, t4, t5, t6⟩ := tl
        refine ⟨?_, ?_, fun _ => ⟨?_, ?_, t6, ?_⟩⟩
        · simp only [emOf, List.map_cons]
          rw [List.pairwise_cons]
          exact ⟨fun m hm => hs2l ▸ t2 m hm, t1⟩
        · intro m hm
          simp only [emOf, List.map_cons, List.mem_cons] at hm
          rcases hm with rfl | hm
          · exact hm_ge
          · exact le_of_lt (lt_of_le_of_lt hm_ge (hs2l ▸ t2 m hm))
        · simp [emOf]
        · intro m hm
          simp only [emOf, List.map_cons, List.mem_cons] at hm
          rcases hm with rfl | hm
          · exact hs2l ▸ t4
          · exact t5 m hm
        · exact le_trans hm_ge (hs2l ▸ t4)
      · rw [readLoop_cons_audio_fail tbN tbD t0 s p ps hp
          (by simpa using hw)]
        refine ⟨by simp [emOf], ?_, fun _ => ⟨by simp [emOf], ?_, ?_, ?_⟩⟩
        · intro m hm
          simp only [emOf, List.map_cons, List.map_nil, List.mem_singleton]
            at hm
          rw [hm]; exact hm_ge
        · intro m hm
          simp only [emOf, List.map_cons, List.map_nil, List.mem_singleton]
            at hm
          rw [hm]
        · rw [mapStep_duration]; exact hpd
        · exact hm_ge
    · rw [readLoop_skip tbN tbD t0 s p ps (by simpa using hp),
        audioOf_cons, if_neg hp]
      rw [audioOf_cons, if_neg hp] at h2 h3
      exact ih s hf h2 h3

theorem getLast?_cons_ne {α : Type} (a : α) {l : List α} (h : l ≠ []) :
    (a :: l).getLast? = l.getLast? := by
  cases l with
  | nil => exact absurd rfl h
  | cons b t => exact List.getLast?_cons_cons

/-- The first emission of a fresh track is its first audio packet's pts
plus the (possibly absorption-corrected) offset. -/
theorem readLoop_head_em (tbN tbD t0 : Int) :
    ∀ (pkts : List Packet) (s : TrackLoop), s.first_pkt = true →
      ∀ p rest, audioOf pkts = p :: rest →
      (emOf (readLoop tbN tbD t0 s pkts)).head? =
        some (p.pts +
          (if p.pts < 0 then s.offset_pts - p.pts else s.offset_pts)) := by
  intro pkts
  induction pkts with
  | nil =>
    intro s _ p rest h
    exact absurd h (by simp [audioOf_nil])
  | cons q ps ih =>
    intro s hf p rest h
    by_cases hq : q.audio = true
    · rw [audioOf_cons, if_pos hq] at h
      obtain ⟨hqp, -⟩ := List.cons.inj h
      subst hqp
      by_cases hw : q.writeOk = true
      · rw [readLoop_cons_audio_ok tbN tbD t0 s q ps hq hw]
        simp only [emOf, List.map_cons, List.head?_cons]
        rw [mapStep_last_of_first s q hf]
      · rw [readLoop_cons_audio_fail tbN tbD t0 s q ps hq
          (by simpa using hw)]
        simp only [emOf, List.map_cons, List.map_nil, List.head?_cons]
        rw [mapStep_last_of_first s q hf]
    · rw [readLoop_skip tbN tbD t0 s q ps (by simpa using hq)]
      rw [audioOf_cons, if_neg hq] at h
      exact ih s hf p rest h

/-- When the loop finishes without a write failure, `last_pts` is the last
emitted timestamp and `last_duration` is the last audio packet's duration. -/
theorem readLoop_last (tbN tbD t0 : Int) :
    ∀ (pkts : List Packet) (s : TrackLoop),
      (readLoop tbN tbD t0 s pkts).2.2 = false →
      ∀ q, (audioOf pkts).getLast? = some q →
        (readLoop tbN tbD t0 s pkts).1.last_duration = q.duration ∧
        (emOf (readLoop tbN tbD t0 s pkts)).getLast? =
          some ((readLoop tbN tbD t0 s pkts).1.last_pts) := by
  intro pkts
  induction pkts with
  | nil =>
    intro s _ q hq
    exact absurd hq (by simp [audioOf_nil])
  | cons p ps ih =>
    intro s hok q hq
    by_cases hp : p.audio = true
    · by_cases hw : p.writeOk = true
      · rw [readLoop_cons_audio_ok tbN tbD t0 s p ps hp hw] at hok ⊢
        rw [audioOf_cons, if_pos hp] at hq
        by_cases hps : audioOf ps = []
        · rw [readLoop_nil_audio tbN tbD t0 ps _ hps]
          rw [hps] at hq
          simp only [List.getLast?_singleton, Option.some.injEq] at hq
          subst hq
          constructor
          · rw [lagStep_duration, mapStep_duration]
          · simp [emOf, lagStep_last]
        · have hemr := ih (lagStep tbN tbD t0 (mapStep s p) p.now) hok q
            (by rwa [getLast?_cons_ne p hps] at hq)
          have hne :
              emOf (readLoop tbN tbD t0
                (lagStep tbN tbD t0 (mapStep s p) p.now) ps) ≠ [] := by
            intro hemp
            rw [hemp] at hemr
            exact (Option.some_ne_none _ hemr.2.symm).elim
          refine ⟨hemr.1, ?_⟩
          simp only [emOf, List.map_cons] at hne ⊢
          rw [getLast?_cons_ne _ hne]
          exact hemr.2
      · rw [readLoop_cons_audio_fail tbN tbD t0 s p ps hp
          (by simpa using hw)] at hok
        exact absurd hok (by simp)
    · rw [readLoop_skip tbN tbD t0 s p ps (by simpa using hp)] at hok ⊢
      rw [audioOf_cons, if_neg hp] at hq
      exact ih s hok q hq

theorem emittedOf_nil : emittedOf [] = [] := rfl

theorem emittedOf_append (a b : List Ev) :
    emittedOf (a ++ b) = emittedOf a ++ emittedOf b :=
  List.filterMap_append a b _

theorem emittedOf_emit (m : Int) (l : List Ev) :
    emittedOf (Ev.emit m :: l) = m :: emittedOf l := rfl

theorem emittedOf_logError (l : List Ev) :
    emittedOf (Ev.logError :: l) = emittedOf l := rfl

theorem emittedOf_backoff (n : Nat) (l : List Ev) :
    emittedOf (Ev.backoff n :: l) = emittedOf l := rfl

theorem emittedOf_connect (l : List Ev) :
    emittedOf (Ev.connect :: l) = emittedOf l := rfl

theorem emittedOf_header (l : List Ev) :
    emittedOf (Ev.header :: l) = emittedOf l := rfl

theorem emittedOf_sleep (u : Int) (l : List Ev) :
    emittedOf (Ev.sleep u :: l) = emittedOf l := rfl

/-- The emissions recorded in a track's event trace are exactly the pts
handed to the muxer by its packet loop. -/
theorem emittedOf_trackTrace (hdr : Bool) (tr : List (Option Int × Int)) :
    emittedOf (trackTrace hdr tr) = tr.map Prod.snd := by
  have hflat : ∀ t : List (Option Int × Int),
      emittedOf (t.flatMap fun sm =>
        (match sm.1 with | some w => [Ev.sleep w] | none => []) ++
          [Ev.emit sm.2]) = t.map Prod.snd := by
    intro t
    induction t with
    | nil => rfl
    | cons sm t iht =>
      obtain ⟨slp, m⟩ := sm
      cases slp with
      | none =>
        simp only [List.flatMap_cons, List.nil_append, List.singleton_append,
          List.map_cons]
        rw [emittedOf_emit, iht]
      | some w =>
        simp only [List.flatMap_cons, List.map_cons, List.cons_append,
          List.nil_append]
        rw [emittedOf_sleep, emittedOf_emit, iht]
  unfold trackTrace
  rw [emittedOf_append, hflat]
  cases hdr <;> simp [emittedOf]

theorem trackTrace_nil (hdr : Bool) :
    trackTrace hdr [] = if hdr then [Ev.header] else [] := by
  simp [trackTrace]

/-- Tracks on which the engine's timestamp mapping is well behaved: if the
track opens, it has at least one audio packet, the audio packets carry
strictly increasing timestamps, and every audio packet has positive
duration. -/
def goodTrack : TrackInput → Bool
  | .opened _ _ _ pkts =>
    !(audioOf pkts).isEmpty &&
    decide ((audioOf pkts).Pairwise fun p q => p.pts < q.pts) &&
    decide (∀ p ∈ audioOf pkts, 0 < p.duration)
  | _ => true

/-- A run script all of whose opened tracks are well behaved. -/
def goodScript (script : List RunEvent) : Bool :=
  script.all fun ev => match ev with
    | .scan files => files.all goodTrack
    | .scanFail => true

theorem goodTrack_opened {tbN tbD : Int} {hdr : HeaderOutcome}
    {pkts : List Packet}
    (h : goodTrack (.opened tbN tbD hdr pkts) = true) :
    audioOf pkts ≠ [] ∧
    (audioOf pkts).Pairwise (fun p q => p.pts < q.pts) ∧
    (∀ p ∈ audioOf pkts, 0 < p.duration) := by
  simp only [goodTrack, Bool.and_eq_true, Bool.not_eq_true',
    List.isEmpty_eq_false, decide_eq_true_eq] at h
  exact ⟨h.1.1, h.1.2, h.2⟩

theorem stream_file_opened_ok (t0 : Int) (st : EngineState)
    (tbN tbD : Int) (hdr : HeaderOutcome) (pkts : List Packet)
    (hpass : st.audio_stream = true ∨ hdr = HeaderOutcome.ok)
    (h : (readLoop tbN tbD t0 ⟨st.offset_pts, st.lag, true, 0, 0⟩
      pkts).2.2 = false) :
    stream_file t0 st (.opened tbN tbD hdr pkts) =
      ⟨⟨(readLoop tbN tbD t0 ⟨st.offset_pts, st.lag, true, 0, 0⟩
            pkts).1.last_pts +
          (readLoop tbN tbD t0 ⟨st.offset_pts, st.lag, true, 0, 0⟩
            pkts).1.last_duration,
        (readLoop tbN tbD t0 ⟨st.offset_pts, st.lag, true, 0, 0⟩
          pkts).1.lag, true⟩,
       !st.audio_stream,
       (readLoop tbN tbD t0 ⟨st.offset_pts, st.lag, true, 0, 0⟩ pkts).2.1,
       none⟩ := by
  cases hst : st.audio_stream with
  | true => simp [stream_file, hst, h]
  | false =>
    rcases hpass with hc | hc
    · rw [hst] at hc
      exact absurd hc (by simp)
    · subst hc
      simp [stream_file, hst, headerBlock, h]

theorem stream_file_opened_fail (t0 : Int) (st : EngineState)
    (tbN tbD : Int) (hdr : HeaderOutcome) (pkts : List Packet)
    (hpass : st.audio_stream = true ∨ hdr = HeaderOutcome.ok)
    (h : (readLoop tbN tbD t0 ⟨st.offset_pts, st.lag, true, 0, 0⟩
      pkts).2.2 = true) :
    stream_file t0 st (.opened tbN tbD hdr pkts) =
      ⟨⟨(readLoop tbN tbD t0 ⟨st.offset_pts, st.lag, true, 0, 0⟩
            pkts).1.offset_pts,
        (readLoop tbN tbD t0 ⟨st.offset_pts, st.lag, true, 0, 0⟩
          pkts).1.lag, true⟩,
       !st.audio_stream,
       (readLoop tbN tbD t0 ⟨st.offset_pts, st.lag, true, 0, 0⟩ pkts).2.1,
       some .writePacket⟩ := by
  cases hst : st.audio_stream with
  | true => simp [stream_file, hst, h]
  | false =>
    rcases hpass with hc | hc
    · rw [hst] at hc
      exact absurd hc (by simp)
    · subst hc
      simp [stream_file, hst, headerBlock, h]

theorem stream_file_newStream (t0 : Int) (st : EngineState)
    (tbN tbD : Int) (pkts : List Packet) (hst : st.audio_stream = false) :
    stream_file t0 st (.opened tbN tbD .newStreamFail pkts) =
      ⟨⟨st.offset_pts, st.lag, false⟩, false, [], some .newStream⟩ := by
  simp [stream_file, hst, headerBlock]

theorem stream_file_copyParams (t0 : Int) (st : EngineState)
    (tbN tbD : Int) (pkts : List Packet) (hst : st.audio_stream = false) :
    stream_file t0 st (.opened tbN tbD .copyFail pkts) =
      ⟨⟨st.offset_pts, st.lag, true⟩, false, [], some .copyParams⟩ := by
  simp [stream_file, hst, headerBlock]

theorem stream_file_writeHeader (t0 : Int) (st : EngineState)
    (tbN tbD : Int) (pkts : List Packet) (hst : st.audio_stream = false) :
    stream_file t0 st (.opened tbN tbD .headerFail pkts) =
      ⟨⟨st.offset_pts, st.lag, true⟩, false, [], some .writeHeader⟩ := by
  simp [stream_file, hst, headerBlock]

theorem trackTrace_false_nil : trackTrace false [] = [] := rfl

theorem playFiles_nil (t0 : Int) (st : EngineState) :
    playFiles t0 st [] = ⟨st, [], none⟩ := rfl

theorem playFiles_cons_ok (t0 : Int) (st : EngineState) (f : TrackInput)
    (fs : List TrackInput) (h : (stream_file t0 st f).err = none) :
    playFiles t0 st (f :: fs) =
      ⟨(playFiles t0 (stream_file t0 st f).state fs).state,
       trackTrace (stream_file t0 st f).headerWritten
           (stream_file t0 st f).pktTrace ++
         (playFiles t0 (stream_file t0 st f).state fs).trace,
       (playFiles t0 (stream_file t0 st f).state fs).fatal⟩ := by
  simp only [playFiles]
  rw [h]

theorem playFiles_cons_write (t0 : Int) (st : EngineState) (f : TrackInput)
    (fs : List TrackInput)
    (h : (stream_file t0 st f).err = some .writePacket) :
    playFiles t0 st (f :: fs) =
      ⟨(stream_file t0 st f).state,
       trackTrace (stream_file t0 st f).headerWritten
         (stream_file t0 st f).pktTrace,
       some .writePacket⟩ := by
  simp only [playFiles]
  rw [h]

theorem playFiles_cons_openFail (t0 : Int) (st : EngineState)
    (fs : List TrackInput) :
    playFiles t0 st (.openFail :: fs) =
      ⟨(playFiles t0 st fs).state,
       Ev.logError :: Ev.backoff 1 :: (playFiles t0 st fs).trace,
       (playFiles t0 st fs).fatal⟩ := by
  simp [playFiles, stream_file, trackTrace]

theorem playFiles_cons_infoFail (t0 : Int) (st : EngineState)
    (fs : List TrackInput) :
    playFiles t0 st (.infoFail :: fs) =
      ⟨(playFiles t0 st fs).state,
       Ev.logError :: Ev.backoff 1 :: (playFiles t0 st fs).trace,
       (playFiles t0 st fs).fatal⟩ := by
  simp [playFiles, stream_file, trackTrace]

theorem playFiles_cons_noAudio (t0 : Int) (st : EngineState)
    (fs : List TrackInput) :
    playFiles t0 st (.noAudio :: fs) =
      ⟨(playFiles t0 st fs).state,
       Ev.logError :: Ev.backoff 1 :: (playFiles t0 st fs).trace,
       (playFiles t0 st fs).fatal⟩ := by
  simp [playFiles, stream_file, trackTrace]

theorem playFiles_cons_newStreamFail (t0 : Int) (st : EngineState)
    (tbN tbD : Int) (pkts : List Packet) (fs : List TrackInput)
    (hst : st.audio_stream = false) :
    playFiles t0 st (.opened tbN tbD .newStreamFail pkts :: fs) =
      ⟨(playFiles t0 ⟨st.offset_pts, st.lag, false⟩ fs).state,
       Ev.logError :: Ev.backoff 1 ::
         (playFiles t0 ⟨st.offset_pts, st.lag, false⟩ fs).trace,
       (playFiles t0 ⟨st.offset_pts, st.lag, false⟩ fs).fatal⟩ := by
  simp [playFiles, stream_file_newStream t0 st tbN tbD pkts hst,
    trackTrace]

theorem playFiles_cons_copyFail (t0 : Int) (st : EngineState)
    (tbN tbD : Int) (pkts : List Packet) (fs : List TrackInput)
    (hst : st.audio_stream = false) :
    playFiles t0 st (.opened tbN tbD .copyFail pkts :: fs) =
      ⟨(playFiles t0 ⟨st.offset_pts, st.lag, true⟩ fs).state,
       Ev.logError :: Ev.backoff 1 ::
         (playFiles t0 ⟨st.offset_pts, st.lag, true⟩ fs).trace,
       (playFiles t0 ⟨st.offset_pts, st.lag, true⟩ fs).fatal⟩ := by
  simp [playFiles, stream_file_copyParams t0 st tbN tbD pkts hst,
    trackTrace]

theorem playFiles_cons_headerFail (t0 : Int) (st : EngineState)
    (tbN tbD : Int) (pkts : List Packet) (fs : List TrackInput)
    (hst : st.audio_stream = false) :
    playFiles t0 st (.opened tbN tbD .headerFail pkts :: fs) =
      ⟨(playFiles t0 ⟨st.offset_pts, st.lag, true⟩ fs).state,
       Ev.logError :: Ev.backoff 1 ::
         (playFiles t0 ⟨st.offset_pts, st.lag, true⟩ fs).trace,
       (playFiles t0 ⟨st.offset_pts, st.lag, true⟩ fs).fatal⟩ := by
  simp [playFiles, stream_file_writeHeader t0 st tbN tbD pkts hst,
    trackTrace]

theorem runLoop_nil (t0 : Int) (st : EngineState) :
    runLoop t0 st [] = ⟨st, [], none⟩ := rfl

theorem runLoop_scanFail (t0 : Int) (st : EngineState)
    (rest : List RunEvent) :
    runLoop t0 st (.scanFail :: rest) = ⟨st, [], some .scan⟩ := rfl

theorem runLoop_scan_nil (t0 : Int) (st : EngineState)
    (rest : List RunEvent) :
    runLoop t0 st (.scan [] :: rest) =
      ⟨(runLoop t0 st rest).state,
       Ev.logError :: Ev.backoff 5 :: (runLoop t0 st rest).trace,
       (runLoop t0 st rest).fatal⟩ := by
  simp [runLoop]

theorem runLoop_scan_fatal (t0 : Int) (st : EngineState) (f : TrackInput)
    (fs : List TrackInput) (rest : List RunEvent) (e : FatalErr)
    (h : (playFiles t0 st (f :: fs)).fatal = some e) :
    runLoop t0 st (.scan (f :: fs) :: rest) =
      ⟨(playFiles t0 st (f :: fs)).state,
       (playFiles t0 st (f :: fs)).trace, some e⟩ := by
  simp only [runLoop, List.isEmpty_cons, Bool.false_eq_true, if_false]
  rw [h]

theorem runLoop_scan_ok (t0 : Int) (st : EngineState) (f : TrackInput)
    (fs : List TrackInput) (rest : List RunEvent)
    (h : (playFiles t0 st (f :: fs)).fatal = none) :
    runLoop t0 st (.scan (f :: fs) :: rest) =
      ⟨(runLoop t0 (playFiles t0 st (f :: fs)).state rest).state,
       (playFiles t0 st (f :: fs)).trace ++
         (runLoop t0 (playFiles t0 st (f :: fs)).state rest).trace,
       (runLoop t0 (playFiles t0 st (f :: fs)).state rest).fatal⟩ := by
  simp only [runLoop, List.isEmpty_cons, Bool.false_eq_true, if_false]
  rw [h]

/-- Invariant of `run`'s per-file loop over well-behaved tracks: the
emitted timestamps are strictly increasing, bounded below by the entry
offset, and (absent a fatal error) strictly below the exit offset. -/
theorem playFiles_mono (t0 : Int) :
    ∀ (files : List TrackInput) (st : EngineState),
      files.all goodTrack = true →
      (emittedOf (playFiles t0 st files).trace).Pairwise (· < ·) ∧
      (∀ m ∈ emittedOf (playFiles t0 st files).trace, st.offset_pts ≤ m) ∧
      ((playFiles t0 st files).fatal = none →
        (∀ m ∈ emittedOf (playFiles t0 st files).trace,
          m < (playFiles t0 st files).state.offset_pts) ∧
        st.offset_pts ≤ (playFiles t0 st files).state.offset_pts) := by
  intro files
  induction files with
  | nil =>
    intro st _
    rw [playFiles_nil]
    exact ⟨List.Pairwise.nil, by simp [emittedOf_nil],
      fun _ => ⟨by simp [emittedOf_nil], le_refl _⟩⟩
  | cons f fs ih =>
    intro st hall
    rw [List.all_cons, Bool.and_eq_true] at hall
    obtain ⟨hf, hfs⟩ := hall
    cases f with
    | openFail =>
      rw [playFiles_cons_openFail]
      dsimp only
      rw [emittedOf_logError, emittedOf_backoff]
      exact ih st hfs
    | infoFail =>
      rw [playFiles_cons_infoFail]
      dsimp only
      rw [emittedOf_logError, emittedOf_backoff]
      exact ih st hfs
    | noAudio =>
      rw [playFiles_cons_noAudio]
      dsimp only
      rw [emittedOf_logError, emittedOf_backoff]
      exact ih st hfs
    | opened tbN tbD hdr pkts =>
      obtain ⟨hne, hpw, hdur⟩ := goodTrack_opened hf
      obtain ⟨hd1, hd2, hd3⟩ := readLoop_head tbN tbD t0 pkts
        ⟨st.offset_pts, st.lag, true, 0, 0⟩ rfl hpw hdur
      obtain ⟨hdne, hdle, hddur, hdlast⟩ := hd3 hne
      by_cases hpass : st.audio_stream = true ∨ hdr = HeaderOutcome.ok
      case neg =>
        push_neg at hpass
        obtain ⟨hst', hhdr⟩ := hpass
        have hst : st.audio_stream = false := by simpa using hst'
        cases hdr with
        | ok => exact absurd rfl hhdr
        | newStreamFail =>
          rw [playFiles_cons_newStreamFail t0 st tbN tbD pkts fs hst]
          dsimp only
          rw [emittedOf_logError, emittedOf_backoff]
          exact ih ⟨st.offset_pts, st.lag, false⟩ hfs
        | copyFail =>
          rw [playFiles_cons_copyFail t0 st tbN tbD pkts fs hst]
          dsimp only
          rw [emittedOf_logError, emittedOf_backoff]
          exact ih ⟨st.offset_pts, st.lag, true⟩ hfs
        | headerFail =>
          rw [playFiles_cons_headerFail t0 st tbN tbD pkts fs hst]
          dsimp only
          rw [emittedOf_logError, emittedOf_backoff]
          exact ih ⟨st.offset_pts, st.lag, true⟩ hfs
      by_cases hwf : (readLoop tbN tbD t0
          ⟨st.offset_pts, st.lag, true, 0, 0⟩ pkts).2.2 = true
      · have hsf := stream_file_opened_fail t0 st tbN tbD hdr pkts hpass
          hwf
        have herr : (stream_file t0 st (.opened tbN tbD hdr pkts)).err =
            some .writePacket := by rw [hsf]
        rw [playFiles_cons_write t0 st _ fs herr, hsf]
        dsimp only
        rw [emittedOf_trackTrace]
        refine ⟨hd1, hd2, ?_⟩
        intro hcon
        exact absurd hcon (by simp)
      · have hwf' : (readLoop tbN tbD t0
            ⟨st.offset_pts, st.lag, true, 0, 0⟩ pkts).2.2 = false := by
          simpa using hwf
        have hsf := stream_file_opened_ok t0 st tbN tbD hdr pkts hpass
          hwf'
        have herr : (stream_file t0 st (.opened tbN tbD hdr pkts)).err =
            none := by rw [hsf]
        rw [playFiles_cons_ok t0 st _ fs herr, hsf]
        dsimp only
        obtain ⟨ih1, ih2, ih3⟩ := ih
          ⟨(readLoop tbN tbD t0 ⟨st.offset_pts, st.lag, true, 0, 0⟩
              pkts).1.last_pts +
            (readLoop tbN tbD t0 ⟨st.offset_pts, st.lag, true, 0, 0⟩
              pkts).1.last_duration,
           (readLoop tbN tbD t0 ⟨st.offset_pts, st.lag, true, 0, 0⟩
             pkts).1.lag, true⟩ hfs
        rw [emittedOf_append, emittedOf_trackTrace]
        have hlt : ∀ m ∈ emOf (readLoop tbN tbD t0
            ⟨st.offset_pts, st.lag, true, 0, 0⟩ pkts),
            m < (readLoop tbN tbD t0 ⟨st.offset_pts, st.lag, true, 0, 0⟩
                pkts).1.last_pts +
              (readLoop tbN tbD t0 ⟨st.offset_pts, st.lag, true, 0, 0⟩
                pkts).1.last_duration := by
          intro m hm
          have := hdle m hm
          linarith
        have hle : st.offset_pts <
            (readLoop tbN tbD t0 ⟨st.offset_pts, st.lag, true, 0, 0⟩
                pkts).1.last_pts +
              (readLoop tbN tbD t0 ⟨st.offset_pts, st.lag, true, 0, 0⟩
                pkts).1.last_duration := by
          have := hdlast
          linarith
        refine ⟨?_, ?_, ?_⟩
        · rw [List.pairwise_append]
          refine ⟨hd1, ih1, ?_⟩
          intro m hm m' hm'
          exact lt_of_lt_of_le (hlt m hm) (ih2 m' hm')
        · intro m hm
          rw [List.mem_append] at hm
          rcases hm with hm | hm
          · exact hd2 m hm
          · exact le_trans (le_of_lt hle) (ih2 m hm)
        · intro hfat
          obtain ⟨ih3a, ih3b⟩ := ih3 hfat
          refine ⟨?_, le_trans (le_of_lt hle) ih3b⟩
          intro m hm
          rw [List.mem_append] at hm
          rcases hm with hm | hm
          · exact lt_of_lt_of_le (hlt m hm) ih3b
          · exact ih3a m hm

/-- Invariant of the whole scan loop: over a well-behaved script the
emitted timestamps are strictly increasing, bounded below by the entry
offset, and (absent a fatal error) strictly below the exit offset. -/
theorem runLoop_mono (t0 : Int) :
    ∀ (script : List RunEvent) (st : EngineState),
      goodScript script = true →
      (emittedOf (runLoop t0 st script).trace).Pairwise (· < ·) ∧
      (∀ m ∈ emittedOf (runLoop t0 st script).trace, st.offset_pts ≤ m) ∧
      ((runLoop t0 st script).fatal = none →
        (∀ m ∈ emittedOf (runLoop t0 st script).trace,
          m < (runLoop t0 st script).state.offset_pts) ∧
        st.offset_pts ≤ (runLoop t0 st script).state.offset_pts) := by
  intro script
  induction script with
  | nil =>
    intro st _
    rw [runLoop_nil]
    exact ⟨List.Pairwise.nil, by simp [emittedOf_nil],
      fun _ => ⟨by simp [emittedOf_nil], le_refl _⟩⟩
  | cons ev rest ih =>
    intro st hg
    simp only [goodScript, List.all_cons, Bool.and_eq_true] at hg
    obtain ⟨hev, hrest⟩ := hg
    have hrest' : goodScript rest = true := hrest
    cases ev with
    | scanFail =>
      rw [runLoop_scanFail]
      dsimp only
      exact ⟨List.Pairwise.nil, by simp [emittedOf_nil],
        fun hcon => absurd hcon (by simp)⟩
    | scan files =>
      cases files with
      | nil =>
        rw [runLoop_scan_nil]
        dsimp only
        rw [emittedOf_logError, emittedOf_backoff]
        exact ih st hrest'
      | cons f fs =>
        have hfiles : (f :: fs).all goodTrack = true := hev
        obtain ⟨p1, p2, p3⟩ := playFiles_mono t0 (f :: fs) st hfiles
        cases hfat : (playFiles t0 st (f :: fs)).fatal with
        | some e =>
          rw [runLoop_scan_fatal t0 st f fs rest e hfat]
          dsimp only
          exact ⟨p1, p2, fun hcon => absurd hcon (by simp)⟩
        | none =>
          rw [runLoop_scan_ok t0 st f fs rest hfat]
          dsimp only
          obtain ⟨p3a, p3b⟩ := p3 hfat
          obtain ⟨r1, r2, r3⟩ := ih (playFiles t0 st (f :: fs)).state hrest'
          rw [emittedOf_append]
          refine ⟨?_, ?_, ?_⟩
          · rw [List.pairwise_append]
            exact ⟨p1, r1,
              fun m hm m' hm' => lt_of_lt_of_le (p3a m hm) (r2 m' hm')⟩
          · intro m hm
            rw [List.mem_append] at hm
            rcases hm with hm | hm
            · exact p2 m hm
            · exact le_trans p3b (r2 m hm)
          · intro hfat2
            obtain ⟨r3a, r3b⟩ := r3 hfat2
            refine ⟨?_, le_trans p3b r3b⟩
            intro m hm
            rw [List.mem_append] at hm
            rcases hm with hm | hm
            · exact lt_of_lt_of_le (p3a m hm) r3b
            · exact r3a m hm

/-- Whether a track attempt, run while `audio_stream` is still null, would
leave the member assigned: it opens and its header block gets past
`avformat_new_stream` (lines 404-409). -/
def setsStream : TrackInput → Bool
  | .opened _ _ .newStreamFail _ => false
  | .opened _ _ _ _ => true
  | _ => false

/-- Whether a track attempt, run while `audio_stream` is still null, would
write the stream header: it opens and its whole header block succeeds
(lines 404-421). -/
def writesHeader : TrackInput → Bool
  | .opened _ _ .ok _ => true
  | _ => false

/-- `stream_file` writes the header exactly when the output stream does
not exist yet and the track's whole header block succeeds; the output
stream exists afterwards iff it existed before or the track got past
`avformat_new_stream` — in particular a track whose codec-copy or
header-write step fails leaves the stream marked existing with the header
unwritten, and no later track writes it. -/
theorem stream_file_header (t0 : Int) (st : EngineState) (f : TrackInput) :
    (stream_file t0 st f).headerWritten =
      (!st.audio_stream && writesHeader f) ∧
    (stream_file t0 st f).state.audio_stream =
      (st.audio_stream || setsStream f) := by
  cases f with
  | openFail => simp [stream_file, setsStream, writesHeader]
  | infoFail => simp [stream_file, setsStream, writesHeader]
  | noAudio => simp [stream_file, setsStream, writesHeader]
  | opened tbN tbD hdr pkts =>
    cases hst : st.audio_stream with
    | true =>
      simp only [stream_file, hst, setsStream, writesHeader]
      split
      · simp
      · split <;> simp
    | false =>
      cases hdr with
      | ok =>
        simp only [stream_file, hst, headerBlock, setsStream, writesHeader]
        split
        · simp
        · split <;> simp
      | newStreamFail =>
        simp [stream_file, hst, headerBlock, setsStream, writesHeader]
      | copyFail =>
        simp [stream_file, hst, headerBlock, setsStream, writesHeader]
      | headerFail =>
        simp [stream_file, hst, headerBlock, setsStream, writesHeader]

theorem trackTrace_counts (hdr : Bool) (tr : List (Option Int × Int)) :
    (trackTrace hdr tr).count Ev.header = (if hdr then 1 else 0) ∧
    (trackTrace hdr tr).count Ev.connect = 0 := by
  have hflat : ∀ t : List (Option Int × Int),
      (t.flatMap fun sm =>
        (match sm.1 with | some w => [Ev.sleep w] | none => []) ++
          [Ev.emit sm.2]).count Ev.header = 0 ∧
      (t.flatMap fun sm =>
        (match sm.1 with | some w => [Ev.sleep w] | none => []) ++
          [Ev.emit sm.2]).count Ev.connect = 0 := by
    intro t
    induction t with
    | nil => exact ⟨rfl, rfl⟩
    | cons sm t iht =>
      obtain ⟨slp, m⟩ := sm
      cases slp with
      | none =>
        simp only [List.flatMap_cons, List.nil_append, List.singleton_append,
          List.count_cons, beq_iff_eq]
        simp [iht.1, iht.2]
      | some w =>
        simp only [List.flatMap_cons, List.cons_append, List.nil_append,
          List.count_cons, beq_iff_eq]
        simp [iht.1, iht.2]
  unfold trackTrace
  refine ⟨?_, ?_⟩ <;> rw [List.count_append] <;> cases hdr <;>
    simp [(hflat tr).1, (hflat tr).2]

/-- Header/connect bookkeeping of the per-file loop: it emits no `connect`
event, at most one `header` event, none when the output stream already
exists, none when the stream still does not exist afterwards, and the
stream flag is monotone. -/
theorem playFiles_header (t0 : Int) :
    ∀ (files : List TrackInput) (st : EngineState),
      (playFiles t0 st files).trace.count Ev.header ≤ 1 ∧
      (st.audio_stream = true →
        (playFiles t0 st files).trace.count Ev.header = 0) ∧
      (st.audio_stream = true →
        (playFiles t0 st files).state.audio_stream = true) ∧
      ((playFiles t0 st files).state.audio_stream = false →
        (playFiles t0 st files).trace.count Ev.header = 0) ∧
      (playFiles t0 st files).trace.count Ev.connect = 0 := by
  intro files
  induction files with
  | nil =>
    intro st
    rw [playFiles_nil]
    exact ⟨by simp, fun _ => rfl, fun h => h, fun _ => rfl, rfl⟩
  | cons f fs ihf =>
    intro st
    cases f with
    | openFail =>
      rw [playFiles_cons_openFail]
      dsimp only
      simp only [List.count_cons, beq_iff_eq]
      simpa using ihf st
    | infoFail =>
      rw [playFiles_cons_infoFail]
      dsimp only
      simp only [List.count_cons, beq_iff_eq]
      simpa using ihf st
    | noAudio =>
      rw [playFiles_cons_noAudio]
      dsimp only
      simp only [List.count_cons, beq_iff_eq]
      simpa using ihf st
    | opened tbN tbD hdr pkts =>
      by_cases hpass : st.audio_stream = true ∨ hdr = HeaderOutcome.ok
      case neg =>
        push_neg at hpass
        obtain ⟨hst', hhdr⟩ := hpass
        have hst : st.audio_stream = false := by simpa using hst'
        cases hdr with
        | ok => exact absurd rfl hhdr
        | newStreamFail =>
          rw [playFiles_cons_newStreamFail t0 st tbN tbD pkts fs hst]
          dsimp only
          obtain ⟨i1, i2, i3, i4, i5⟩ := ihf ⟨st.offset_pts, st.lag, false⟩
          simp only [List.count_cons, beq_iff_eq]
          refine ⟨by simpa using i1, ?_, ?_, by simpa using i4,
            by simpa using i5⟩
          · intro h
            rw [h] at hst
            simp at hst
          · intro h
            rw [h] at hst
            simp at hst
        | copyFail =>
          rw [playFiles_cons_copyFail t0 st tbN tbD pkts fs hst]
          dsimp only
          obtain ⟨i1, i2, i3, i4, i5⟩ := ihf ⟨st.offset_pts, st.lag, true⟩
          have hrest0 : (playFiles t0 ⟨st.offset_pts, st.lag, true⟩
              fs).trace.count Ev.header = 0 := i2 rfl
          simp only [List.count_cons, beq_iff_eq]
          refine ⟨by simp [hrest0], by simp [hrest0], ?_,
            by simp [hrest0], by simpa using i5⟩
          intro h
          rw [h] at hst
          simp at hst
        | headerFail =>
          rw [playFiles_cons_headerFail t0 st tbN tbD pkts fs hst]
          dsimp only
          obtain ⟨i1, i2, i3, i4, i5⟩ := ihf ⟨st.offset_pts, st.lag, true⟩
          have hrest0 : (playFiles t0 ⟨st.offset_pts, st.lag, true⟩
              fs).trace.count Ev.header = 0 := i2 rfl
          simp only [List.count_cons, beq_iff_eq]
          refine ⟨by simp [hrest0], by simp [hrest0], ?_,
            by simp [hrest0], by simpa using i5⟩
          intro h
          rw [h] at hst
          simp at hst
      by_cases hwf : (readLoop tbN tbD t0
          ⟨st.offset_pts, st.lag, true, 0, 0⟩ pkts).2.2 = true
      · have hsf := stream_file_opened_fail t0 st tbN tbD hdr pkts hpass
          hwf
        have herr : (stream_file t0 st (.opened tbN tbD hdr pkts)).err =
            some .writePacket := by rw [hsf]
        rw [playFiles_cons_write t0 st _ fs herr, hsf]
        dsimp only
        refine ⟨?_, ?_, fun _ => rfl, ?_, (trackTrace_counts _ _).2⟩
        · rw [(trackTrace_counts _ _).1]
          cases h : st.audio_stream <;> simp [h]
        · intro h
          rw [(trackTrace_counts _ _).1, h]
          simp
        · intro h
          simp at h
      · have hwf' : (readLoop tbN tbD t0
            ⟨st.offset_pts, st.lag, true, 0, 0⟩ pkts).2.2 = false := by
          simpa using hwf
        have hsf := stream_file_opened_ok t0 st tbN tbD hdr pkts hpass
          hwf'
        have herr : (stream_file t0 st (.opened tbN tbD hdr pkts)).err =
            none := by rw [hsf]
        rw [playFiles_cons_ok t0 st _ fs herr, hsf]
        dsimp only
        obtain ⟨i1, i2, i3, i4, i5⟩ := ihf
          ⟨(readLoop tbN tbD t0 ⟨st.offset_pts, st.lag, true, 0, 0⟩
              pkts).1.last_pts +
            (readLoop tbN tbD t0 ⟨st.offset_pts, st.lag, true, 0, 0⟩
              pkts).1.last_duration,
           (readLoop tbN tbD t0 ⟨st.offset_pts, st.lag, true, 0, 0⟩
             pkts).1.lag, true⟩
        have hrest0 := i2 rfl
        have hfin := i3 rfl
        refine ⟨?_, ?_, fun _ => hfin, ?_, ?_⟩
        · rw [List.count_append, (trackTrace_counts _ _).1, hrest0]
          cases h : st.audio_stream <;> simp [h]
        · intro h
          rw [List.count_append, (trackTrace_counts _ _).1, hrest0, h]
          simp
        · intro h
          rw [hfin] at h
          simp at h
        · rw [List.count_append, (trackTrace_counts _ _).2, i5]

/-- Header/connect bookkeeping of the scan loop. -/
theorem runLoop_header (t0 : Int) :
    ∀ (script : List RunEvent) (st : EngineState),
      (runLoop t0 st script).trace.count Ev.header ≤ 1 ∧
      (st.audio_stream = true →
        (runLoop t0 st script).trace.count Ev.header = 0) ∧
      (st.audio_stream = true →
        (runLoop t0 st script).state.audio_stream = true) ∧
      ((runLoop t0 st script).state.audio_stream = false →
        (runLoop t0 st script).trace.count Ev.header = 0) ∧
      (runLoop t0 st script).trace.count Ev.connect = 0 := by
  intro script
  induction script with
  | nil =>
    intro st
    rw [runLoop_nil]
    exact ⟨by simp, fun _ => rfl, fun h => h, fun _ => rfl, rfl⟩
  | cons ev rest ih =>
    intro st
    cases ev with
    | scanFail =>
      rw [runLoop_scanFail]
      dsimp only
      exact ⟨by simp, fun _ => rfl, fun h => h, fun _ => rfl, rfl⟩
    | scan files =>
      cases files with
      | nil =>
        rw [runLoop_scan_nil]
        dsimp only
        simp only [List.count_cons, beq_iff_eq]
        simpa using ih st
      | cons f fs =>
        cases hfat : (playFiles t0 st (f :: fs)).fatal with
        | some e =>
          rw [runLoop_scan_fatal t0 st f fs rest e hfat]
          dsimp only
          exact playFiles_header t0 (f :: fs) st
        | none =>
          rw [runLoop_scan_ok t0 st f fs rest hfat]
          dsimp only
          obtain ⟨p1, p2, p3, p4, p5⟩ := playFiles_header t0 (f :: fs) st
          obtain ⟨r1, r2, r3, r4, r5⟩ :=
            ih (playFiles t0 st (f :: fs)).state
          refine ⟨?_, ?_, fun h => r3 (p3 h), ?_, ?_⟩
          · rw [List.count_append]
            by_cases h2 : (playFiles t0 st (f :: fs)).state.audio_stream
              = true
            · rw [r2 h2]
              simpa using p1
            · have h2' : (playFiles t0 st (f :: fs)).state.audio_stream
                = false := by simpa using h2
              rw [p4 h2']
              simpa using r1
          · intro h
            rw [List.count_append, p2 h, r2 (p3 h)]
          · intro h
            rw [List.count_append]
            by_cases h2 : (playFiles t0 st (f :: fs)).state.audio_stream
              = true
            · rw [r3 h2] at h
              simp at h
            · have h2' : (playFiles t0 st (f :: fs)).state.audio_stream
                = false := by simpa using h2
              rw [p4 h2', r4 h]
          · rw [List.count_append, p5, r5]

theorem stream_file_pktTrace (t0 : Int) (st : EngineState) (tbN tbD : Int)
    (hdr : HeaderOutcome) (pkts : List Packet)
    (hpass : st.audio_stream = true ∨ hdr = HeaderOutcome.ok) :
    (stream_file t0 st (.opened tbN tbD hdr pkts)).pktTrace =
      (readLoop tbN tbD t0 ⟨st.offset_pts, st.lag, true, 0, 0⟩ pkts).2.1 := by
  cases hw : (readLoop tbN tbD t0 ⟨st.offset_pts, st.lag, true, 0, 0⟩
      pkts).2.2 with
  | false => rw [stream_file_opened_ok t0 st tbN tbD hdr pkts hpass hw]
  | true => rw [stream_file_opened_fail t0 st tbN tbD hdr pkts hpass hw]

/-- Version A on an all-missing track: every packet is mapped to the
running counter, which advances by one per packet. -/
theorem v1_mapTrack_missing : ∀ (n : Nat) (s0 : V1.MapState),
    (V1.mapTrack s0 (List.replicate n avNoPtsValue)).2 =
      (List.range n).map (fun i : Nat => s0.last_pts + (i : Int)) := by
  intro n
  induction n with
  | zero => intro s0; rfl
  | succ k ihk =>
    intro s0
    rw [List.replicate_succ]
    simp only [V1.mapTrack, V1.mapPacket, ne_eq, not_true_eq_false,
      if_false, ite_false]
    rw [ihk ⟨s0.last_pts + 1, s0.offset_pts⟩]
    rw [List.range_succ_eq_map, List.map_cons, List.map_map]
    simp only [Nat.cast_zero, add_zero]
    congr 1
    apply List.map_congr_left
    intro i _
    simp only [Function.comp_apply]
    push_cast
    ring

/-! ## Claim theorems -/

/-- **C1** (counterexample).  A track whose internal timestamps are
non-monotonic (pts 10 then 5) is emitted as [10, 5]: the sequence of mapped
output timestamps handed to the publisher is not strictly increasing, so
the mapper does not enforce monotonicity for non-monotonic inputs. -/
theorem claim_C1_counterexample :
    emittedOf (runStreamer 0 [RunEvent.scan [TrackInput.opened 1 1000000 .ok
        [⟨10, 1, true, true, 0⟩, ⟨5, 1, true, true, 0⟩]]]).trace =
      [10, 5] ∧
    ¬ (emittedOf (runStreamer 0 [RunEvent.scan [TrackInput.opened 1 1000000 .ok
        [⟨10, 1, true, true, 0⟩, ⟨5, 1, true, true, 0⟩]]]).trace).Pairwise
      (· < ·) := by
  decide

/-- **C1** (amended).  Over any run script whose opened tracks each contain
at least one audio packet, with strictly increasing timestamps within the
track and positive packet durations, the sequence of mapped output
timestamps emitted to the publisher across the entire run is strictly
increasing end-to-end, including across track boundaries, regardless of
open failures, write failures, scan outcomes, negative lead-ins, and each
track's absolute timestamp values. -/
theorem claim_C1_amended (t0 : Int) (script : List RunEvent)
    (h : goodScript script = true) :
    (emittedOf (runStreamer t0 script).trace).Pairwise (· < ·) := by
  simp only [runStreamer]
  rw [emittedOf_connect]
  exact (runLoop_mono t0 script ⟨0, 0, false⟩ h).1

/-- Witness for C1: a two-track script (first track with a negative
lead-in) satisfies the hypotheses and its emissions are strictly
increasing. -/
theorem claim_C1_witness :
    goodScript [RunEvent.scan [TrackInput.opened 1 1000000 .ok
        [⟨-3, 5, true, true, 0⟩, ⟨0, 5, true, true, 0⟩],
      TrackInput.opened 1 1000000 .ok
        [⟨10, 5, true, true, 0⟩, ⟨11, 5, true, true, 0⟩]]] = true ∧
    (emittedOf (runStreamer 0 [RunEvent.scan [TrackInput.opened 1 1000000 .ok
        [⟨-3, 5, true, true, 0⟩, ⟨0, 5, true, true, 0⟩],
      TrackInput.opened 1 1000000 .ok
        [⟨10, 5, true, true, 0⟩,
         ⟨11, 5, true, true, 0⟩]]]).trace).Pairwise (· < ·) :=
  ⟨by decide, claim_C1_amended 0 _ (by decide)⟩

/-- **C2**.  A track that ends normally with last emitted timestamp `E`
and last audio-packet duration `D` leaves `offset_pts = E + D` for the next
track, independently of anything the next track contains. -/
theorem claim_C2_carry_forward (t0 : Int) (st : EngineState)
    (tbN tbD : Int) (hdr : HeaderOutcome) (pkts : List Packet) (q : Packet)
    (hq : (audioOf pkts).getLast? = some q)
    (hok : (stream_file t0 st (.opened tbN tbD hdr pkts)).err = none) :
    ∃ E, ((stream_file t0 st (.opened tbN tbD hdr pkts)).pktTrace.map
        Prod.snd).getLast? = some E ∧
      (stream_file t0 st (.opened tbN tbD hdr pkts)).state.offset_pts =
        E + q.duration := by
  have hpass : st.audio_stream = true ∨ hdr = HeaderOutcome.ok := by
    cases hst : st.audio_stream with
    | true => exact Or.inl rfl
    | false =>
      cases hdr with
      | ok => exact Or.inr rfl
      | newStreamFail =>
        rw [stream_file_newStream t0 st tbN tbD pkts hst] at hok
        exact absurd hok (by simp)
      | copyFail =>
        rw [stream_file_copyParams t0 st tbN tbD pkts hst] at hok
        exact absurd hok (by simp)
      | headerFail =>
        rw [stream_file_writeHeader t0 st tbN tbD pkts hst] at hok
        exact absurd hok (by simp)
  by_cases hwf : (readLoop tbN tbD t0
      ⟨st.offset_pts, st.lag, true, 0, 0⟩ pkts).2.2 = true
  · rw [stream_file_opened_fail t0 st tbN tbD hdr pkts hpass hwf] at hok
    exact absurd hok (by simp)
  · have hwf' : (readLoop tbN tbD t0
        ⟨st.offset_pts, st.lag, true, 0, 0⟩ pkts).2.2 = false := by
      simpa using hwf
    obtain ⟨hdur, hlast⟩ := readLoop_last tbN tbD t0 pkts
      ⟨st.offset_pts, st.lag, true, 0, 0⟩ hwf' q hq
    rw [stream_file_opened_ok t0 st tbN tbD hdr pkts hpass hwf']
    dsimp only
    refine ⟨(readLoop tbN tbD t0 ⟨st.offset_pts, st.lag, true, 0, 0⟩
      pkts).1.last_pts, ?_, by rw [hdur]⟩
    exact hlast

/-- Witness for C2: a finished track with last emission 110 and last
duration 5 carries offset 115 forward. -/
theorem claim_C2_witness :
    ∃ E, ((stream_file 0 (⟨100, 0, true⟩ : EngineState)
        (.opened 1 1000000 .ok [⟨0, 7, true, true, 0⟩,
          ⟨10, 5, true, true, 0⟩])).pktTrace.map Prod.snd).getLast? =
      some E ∧
      (stream_file 0 (⟨100, 0, true⟩ : EngineState)
        (.opened 1 1000000 .ok [⟨0, 7, true, true, 0⟩,
          ⟨10, 5, true, true, 0⟩])).state.offset_pts = E + 5 :=
  claim_C2_carry_forward 0 ⟨100, 0, true⟩ 1 1000000 .ok
    [⟨0, 7, true, true, 0⟩, ⟨10, 5, true, true, 0⟩]
    ⟨10, 5, true, true, 0⟩ (by decide) (by decide)

/-- **C3**.  A track whose first audio packet carries a negative timestamp
is emitted with first mapped timestamp exactly the prior carry-forward
offset: the negative lead-in is folded into `offset_pts`, not passed
through. -/
theorem claim_C3_absorption (t0 : Int) (st : EngineState) (tbN tbD : Int)
    (hdr : HeaderOutcome) (pkts : List Packet) (p : Packet)
    (rest : List Packet)
    (hpass : st.audio_stream = true ∨ hdr = HeaderOutcome.ok)
    (haud : audioOf pkts = p :: rest) (hneg : p.pts < 0) :
    ((stream_file t0 st (.opened tbN tbD hdr pkts)).pktTrace.map
      Prod.snd).head? = some st.offset_pts := by
  have hhead := readLoop_head_em tbN tbD t0 pkts
    ⟨st.offset_pts, st.lag, true, 0, 0⟩ rfl p rest haud
  rw [if_pos hneg] at hhead
  rw [stream_file_pktTrace t0 st tbN tbD hdr pkts hpass]
  have heq : p.pts + ((⟨st.offset_pts, st.lag, true, 0, 0⟩ :
      TrackLoop).offset_pts - p.pts) = st.offset_pts := by
    dsimp only
    ring
  rw [heq] at hhead
  exact hhead

/-- Witness for C3: first packet timestamp -500 with prior offset 1234
yields first mapped timestamp exactly 1234. -/
theorem claim_C3_witness :
    audioOf [(⟨-500, 10, true, true, 0⟩ : Packet)] =
      [⟨-500, 10, true, true, 0⟩] ∧ (-500 : Int) < 0 ∧
    ((stream_file 0 (⟨1234, 0, true⟩ : EngineState) (.opened 1 1000000 .ok
        [⟨-500, 10, true, true, 0⟩])).pktTrace.map Prod.snd).head? =
      some 1234 :=
  ⟨by decide, by decide,
    claim_C3_absorption 0 ⟨1234, 0, true⟩ 1 1000000 .ok _
      ⟨-500, 10, true, true, 0⟩ [] (Or.inr rfl) (by decide) (by decide)⟩

/-- **C4** (counterexample).  In version B (the variant with duration
carry-forward) a packet whose `pts` is the missing-timestamp sentinel
`AV_NOPTS_VALUE` is not synthesized as `last_emitted + 1`: the sentinel is
shifted by the offset like any timestamp (here emitted verbatim), while the
claim would require the second emission to be 0 + 1. -/
theorem claim_C4_counterexample :
    ((stream_file 0 (⟨0, 0, true⟩ : EngineState) (.opened 1 1000000 .ok
        [⟨0, 1, true, true, 0⟩,
         ⟨avNoPtsValue, 1, true, true, 0⟩])).pktTrace.map Prod.snd) =
      [0, avNoPtsValue] ∧ avNoPtsValue ≠ 0 + 1 := by
  decide

/-- **C4** (amended).  In version A (the variant with the
missing-timestamp branch), a packet carrying no timestamp is mapped to the
running counter `last_pts`, which is one past the previous packet's mapped
timestamp, so it maps to `last_emitted + 1`; an all-missing track of `n`
packets degrades to the incrementing counter starting at the current
`last_pts`. -/
theorem claim_C4_amended (st : V1.MapState) (p q : Int) (n : Nat)
    (hq : q = avNoPtsValue) :
    (V1.mapPacket (V1.mapPacket st p).1 q).2 = (V1.mapPacket st p).2 + 1 ∧
    (V1.mapTrack st (List.replicate n avNoPtsValue)).2 =
      (List.range n).map (fun i : Nat => st.last_pts + (i : Int)) := by
  constructor
  · subst hq
    simp [V1.mapPacket]
  · exact v1_mapTrack_missing n st

/-- Witness for C4 (amended): after a packet mapped to 105, a packet with
no timestamp maps to 106; three all-missing packets map to [7, 8, 9]. -/
theorem claim_C4_witness :
    (V1.mapPacket (V1.mapPacket (⟨7, 100⟩ : V1.MapState) 5).1
        avNoPtsValue).2 = (V1.mapPacket (⟨7, 100⟩ : V1.MapState) 5).2 + 1 ∧
    (V1.mapTrack (⟨7, 100⟩ : V1.MapState)
        (List.replicate 3 avNoPtsValue)).2 =
      (List.range 3).map (fun i : Nat => (7 : Int) + (i : Int)) :=
  claim_C4_amended ⟨7, 100⟩ 5 avNoPtsValue 3 rfl

/-- **C5** (counterexample).  With time base 1/3000000 a packet of source
duration 1 has wall-clock duration 0 (not positive), yet with lag -1 the
pacer suspends for 1 µs: the sleep condition tests the source-unit
duration, not the wall-clock duration. -/
theorem claim_C5_counterexample :
    delay_for 1 1 3000000 (-1) = some 1 ∧
    avRescaleQus 1 1 3000000 = 0 := by
  decide

/-- **C5** (amended).  The pacer sleeps iff the source-unit duration is
positive and the wall-clock duration minus the lag is positive, in which
case it sleeps exactly that difference; with a microsecond time base the
wall-clock duration equals the source duration, giving exactly the claimed
arithmetic (duration 1000000 with lag 0 waits 1000000; duration 1000000
with lag 1200000 does not suspend). -/
theorem claim_C5_amended :
    (∀ d tbN tbD lag w : Int,
      delay_for d tbN tbD lag = some w ↔
        0 < d ∧ w = avRescaleQus d tbN tbD - lag ∧
          0 < avRescaleQus d tbN tbD - lag) ∧
    (∀ d : Int, avRescaleQus d 1 1000000 = d) ∧
    delay_for 1000000 1 1000000 0 = some 1000000 ∧
    delay_for 1000000 1 1000000 1200000 = none :=
  ⟨delay_for_some_iff, avRescaleQus_usBase, by decide, by decide⟩

/-- **C6**.  A write failure on any packet is fatal: the per-file loop
stops at the failing track (no backoff, no further tracks) and any fatal
error makes the process exit with status 1; an open failure or a missing
audio track is recoverable: it is logged, followed by a fixed 1-second
backoff, and the loop continues with the next track from unchanged state. -/
theorem claim_C6_error_policy (t0 : Int) :
    (∀ (st : EngineState) (f : TrackInput) (fs : List TrackInput),
      (stream_file t0 st f).err = some .writePacket →
      playFiles t0 st (f :: fs) =
        ⟨(stream_file t0 st f).state,
         trackTrace (stream_file t0 st f).headerWritten
           (stream_file t0 st f).pktTrace,
         some .writePacket⟩) ∧
    (∀ script : List RunEvent,
      (runStreamer t0 script).fatal.isSome = true →
      mainExit t0 script = some 1) ∧
    (∀ (st : EngineState) (fs : List TrackInput),
      playFiles t0 st (.openFail :: fs) =
        ⟨(playFiles t0 st fs).state,
         Ev.logError :: Ev.backoff 1 :: (playFiles t0 st fs).trace,
         (playFiles t0 st fs).fatal⟩ ∧
      playFiles t0 st (.noAudio :: fs) =
        ⟨(playFiles t0 st fs).state,
         Ev.logError :: Ev.backoff 1 :: (playFiles t0 st fs).trace,
         (playFiles t0 st fs).fatal⟩) := by
  refine ⟨fun st f fs h => playFiles_cons_write t0 st f fs h, ?_,
    fun st fs =>
      ⟨playFiles_cons_openFail t0 st fs, playFiles_cons_noAudio t0 st fs⟩⟩
  intro script h
  cases hf : (runStreamer t0 script).fatal with
  | none => rw [hf] at h; exact absurd h (by simp)
  | some e => simp [mainExit, hf]

/-- Witness for C6: a track whose only packet fails to write makes the
loop return fatally without touching the following good track, and a run
containing it exits with status 1. -/
theorem claim_C6_witness :
    (stream_file 0 (⟨0, 0, true⟩ : EngineState) (.opened 1 1000000 .ok
        [⟨0, 1, true, false, 0⟩])).err = some StreamError.writePacket ∧
    playFiles 0 (⟨0, 0, true⟩ : EngineState)
        (TrackInput.opened 1 1000000 .ok [⟨0, 1, true, false, 0⟩] ::
          [TrackInput.opened 1 1000000 .ok [⟨3, 1, true, true, 0⟩]]) =
      ⟨⟨0, 0, true⟩, [Ev.sleep 1, Ev.emit 0], some .writePacket⟩ ∧
    mainExit 0 [RunEvent.scan [TrackInput.opened 1 1000000 .ok
        [⟨0, 1, true, false, 0⟩]]] = some 1 :=
  ⟨by decide,
   (claim_C6_error_policy 0).1 ⟨0, 0, true⟩ _ _ (by decide),
   (claim_C6_error_policy 0).2.1 _ (by decide)⟩

/-- **C7** (counterexample).  A failed directory scan does not retry: the
filesystem exception escapes the loop (the try block only wraps
`stream_file`), the subsequent scan with a playable track is never
processed, and the process exits with status 1. -/
theorem claim_C7_counterexample :
    runStreamer 0 [RunEvent.scanFail, RunEvent.scan [TrackInput.opened 1
        1000000 .ok [⟨0, 1, true, true, 0⟩]]] =
      ⟨⟨0, 0, false⟩, [Ev.connect], some FatalErr.scan⟩ ∧
    mainExit 0 [RunEvent.scanFail, RunEvent.scan [TrackInput.opened 1
        1000000 .ok [⟨0, 1, true, true, 0⟩]]] = some 1 := by
  decide

/-- **C7** (amended).  A scan failure (unreadable directory) is fatal: the
loop returns immediately with the state untouched and the process exits
with status 1; only an empty scan result is retried, with a log line and a
5-second backoff before the next scan. -/
theorem claim_C7_scan_policy (t0 : Int) :
    (∀ (st : EngineState) (rest : List RunEvent),
      runLoop t0 st (.scanFail :: rest) = ⟨st, [], some .scan⟩) ∧
    (∀ (st : EngineState) (rest : List RunEvent),
      runLoop t0 st (.scan [] :: rest) =
        ⟨(runLoop t0 st rest).state,
         Ev.logError :: Ev.backoff 5 :: (runLoop t0 st rest).trace,
         (runLoop t0 st rest).fatal⟩) ∧
    (∀ rest : List RunEvent, mainExit t0 (.scanFail :: rest) = some 1) :=
  ⟨fun st rest => runLoop_scanFail t0 st rest,
   fun st rest => runLoop_scan_nil t0 st rest,
   fun _ => rfl⟩

/-- **C8** (counterexample).  In a run whose only track fails to open, the
connection is still established (the `connect` action occurs, first and
once) although no track was ever successfully opened and no header was
written: the connection is not established lazily upon the first
successfully opened track. -/
theorem claim_C8_counterexample :
    runStreamer 0 [RunEvent.scan [TrackInput.openFail]] =
      ⟨⟨0, 0, false⟩, [Ev.connect, Ev.logError, Ev.backoff 1], none⟩ ∧
    (runStreamer 0 [RunEvent.scan
        [TrackInput.openFail]]).state.audio_stream = false ∧
    (runStreamer 0 [RunEvent.scan
        [TrackInput.openFail]]).trace.count Ev.connect = 1 := by
  decide

/-- **C8** (amended).  The connection is established exactly once, eagerly
at the start of `run` (it is the first action of every run).  The stream
header is written at most once per run, lazily, only by a track that opens
while the output stream is still unset and whose whole header block
succeeds, and never once the output stream exists — but not necessarily by
the first successfully opened track: a codec-copy (or header-write)
failure marks the stream existing with the header unwritten forever (the
two-track demonstration emits a packet with no header in the whole run),
while an `avformat_new_stream` failure defers the header to a later track
(the second demonstration's header is written by its second track). -/
theorem claim_C8_session_policy (t0 : Int) :
    (∀ script : List RunEvent,
      (runStreamer t0 script).trace.head? = some Ev.connect ∧
      (runStreamer t0 script).trace.count Ev.connect = 1) ∧
    (∀ script : List RunEvent,
      (runStreamer t0 script).trace.count Ev.header ≤ 1 ∧
      ((runStreamer t0 script).state.audio_stream = false →
        (runStreamer t0 script).trace.count Ev.header = 0)) ∧
    (∀ (st : EngineState) (f : TrackInput),
      (stream_file t0 st f).headerWritten =
        (!st.audio_stream && writesHeader f) ∧
      (stream_file t0 st f).state.audio_stream =
        (st.audio_stream || setsStream f)) ∧
    (runStreamer 0 [RunEvent.scan
        [TrackInput.opened 1 1000000 .copyFail [⟨0, 1, true, true, 0⟩],
         TrackInput.opened 1 1000000 .ok
           [⟨10, 1, true, true, 0⟩]]]).trace.count Ev.header = 0 ∧
    emittedOf (runStreamer 0 [RunEvent.scan
        [TrackInput.opened 1 1000000 .copyFail [⟨0, 1, true, true, 0⟩],
         TrackInput.opened 1 1000000 .ok
           [⟨10, 1, true, true, 0⟩]]]).trace = [10] ∧
    (runStreamer 0 [RunEvent.scan
        [TrackInput.opened 1 1000000 .newStreamFail [⟨0, 1, true, true, 0⟩],
         TrackInput.opened 1 1000000 .ok
           [⟨10, 1, true, true, 0⟩]]]).trace.count Ev.header = 1 := by
  refine ⟨?_, ?_, fun st f => stream_file_header t0 st f, by decide,
    by decide, by decide⟩
  · intro script
    refine ⟨rfl, ?_⟩
    simp only [runStreamer]
    rw [List.count_cons_self,
      (runLoop_header t0 script ⟨0, 0, false⟩).2.2.2.2]
  · intro script
    simp only [runStreamer]
    obtain ⟨h1, _, _, h4, _⟩ := runLoop_header t0 script ⟨0, 0, false⟩
    constructor
    · rw [List.count_cons]
      simpa using h1
    · intro h
      rw [List.count_cons]
      simpa using h4 h

/-- **C9**.  A track that opens with an audio stream but yields no audio
packet resets the carry-forward offset to 0 (the locals `last_pts` and
`last_duration` stay 0 and line 479 stores their sum), discarding whatever
offset had accumulated, while `lag` is kept and the header block still
runs. -/
theorem claim_C9_zero_packets (t0 : Int) (st : EngineState)
    (tbN tbD : Int) (hdr : HeaderOutcome) (pkts : List Packet)
    (hpass : st.audio_stream = true ∨ hdr = HeaderOutcome.ok)
    (h : audioOf pkts = []) :
    stream_file t0 st (.opened tbN tbD hdr pkts) =
      ⟨⟨0, st.lag, true⟩, !st.audio_stream, [], none⟩ := by
  have hrl := readLoop_nil_audio tbN tbD t0 pkts
    ⟨st.offset_pts, st.lag, true, 0, 0⟩ h
  rw [stream_file_opened_ok t0 st tbN tbD hdr pkts hpass (by rw [hrl])]
  rw [hrl]
  rfl

/-- Witness for C9: an accumulated offset of 999 is discarded by a track
whose only packet is non-audio. -/
theorem claim_C9_witness :
    audioOf [(⟨3, 4, false, true, 0⟩ : Packet)] = [] ∧
    stream_file 0 (⟨999, 5, false⟩ : EngineState)
        (.opened 1 1000000 .ok [⟨3, 4, false, true, 0⟩]) =
      ⟨⟨0, 5, true⟩, true, [], none⟩ :=
  ⟨by decide, claim_C9_zero_packets 0 ⟨999, 5, false⟩ 1 1000000 .ok _
    (Or.inr rfl) (by decide)⟩

/-- **C10**.  The three open-phase failures leave the engine state
(`offset_pts` and `lag`) exactly as it was — byte-for-byte the same
`EngineState` — with nothing emitted, and the loop then continues with the
next track from that identical state. -/
theorem claim_C10_failed_open_atomic (t0 : Int) :
    (∀ st : EngineState,
      stream_file t0 st .openFail = ⟨st, false, [], some .openInput⟩ ∧
      stream_file t0 st .infoFail = ⟨st, false, [], some .streamInfo⟩ ∧
      stream_file t0 st .noAudio = ⟨st, false, [], some .noAudioStream⟩) ∧
    (∀ (st : EngineState) (fs : List TrackInput),
      (playFiles t0 st (.openFail :: fs)).state =
        (playFiles t0 st fs).state ∧
      (playFiles t0 st (.infoFail :: fs)).state =
        (playFiles t0 st fs).state ∧
      (playFiles t0 st (.noAudio :: fs)).state =
        (playFiles t0 st fs).state) :=
  ⟨fun st => ⟨rfl, rfl, rfl⟩,
   fun st fs =>
    ⟨by rw [playFiles_cons_openFail], by rw [playFiles_cons_infoFail],
     by rw [playFiles_cons_noAudio]⟩⟩

end Icefeed
